import Mathlib

/-!
Verification development for the `analiseRip.py` reshape/filter/pivot pipeline.

The Python source is shallowly embedded below: pure helper functions become Lean
functions on `String` / `List`; pandas DataFrames become lists of rows; numeric
cells become `Option ℚ` (`none` models NaN); the script's fatal conditions
(pandas `ValueError`, Python `IndexError`, and the two `st.warning` + `st.stop`
states) become the constructors of an explicit error type threaded through an
`Except`.
-/

set_option maxHeartbeats 1000000

namespace AnaliseRip

/-- Unicode NFD decomposition, per character, restricted to the Latin-1
letters relevant to Portuguese text (the repertoire `unicodedata.normalize("NFD", ·)`
meets in this application); characters outside the table are atomic. -/
def nfdChar (c : Char) : List Char :=
  match c with
  | 'À' => ['A', '̀']
  | 'Á' => ['A', '́']
  | 'Â' => ['A', '̂']
  | 'Ã' => ['A', '̃']
  | 'Ä' => ['A', '̈']
  | 'Ç' => ['C', '̧']
  | 'È' => ['E', '̀']
  | 'É' => ['E', '́']
  | 'Ê' => ['E', '̂']
  | 'Ë' => ['E', '̈']
  | 'Ì' => ['I', '̀']
  | 'Í' => ['I', '́']
  | 'Î' => ['I', '̂']
  | 'Ï' => ['I', '̈']
  | 'Ñ' => ['N', '̃']
  | 'Ò' => ['O', '̀']
  | 'Ó' => ['O', '́']
  | 'Ô' => ['O', '̂']
  | 'Õ' => ['O', '̃']
  | 'Ö' => ['O', '̈']
  | 'Ù' => ['U', '̀']
  | 'Ú' => ['U', '́']
  | 'Û' => ['U', '̂']
  | 'Ü' => ['U', '̈']
  | 'à' => ['a', '̀']
  | 'á' => ['a', '́']
  | 'â' => ['a', '̂']
  | 'ã' => ['a', '̃']
  | 'ä' => ['a', '̈']
  | 'ç' => ['c', '̧']
  | 'è' => ['e', '̀']
  | 'é' => ['e', '́']
  | 'ê' => ['e', '̂']
  | 'ë' => ['e', '̈']
  | 'ì' => ['i', '̀']
  | 'í' => ['i', '́']
  | 'î' => ['i', '̂']
  | 'ï' => ['i', '̈']
  | 'ñ' => ['n', '̃']
  | 'ò' => ['o', '̀']
  | 'ó' => ['o', '́']
  | 'ô' => ['o', '̂']
  | 'õ' => ['o', '̃']
  | 'ö' => ['o', '̈']
  | 'ù' => ['u', '̀']
  | 'ú' => ['u', '́']
  | 'û' => ['u', '̂']
  | 'ü' => ['u', '̈']
  | _ => [c]

/-- Combining diacritical marks (Unicode category `Mn`) produced by `nfdChar`. -/
def isCombiningMark (c : Char) : Bool :=
  ['̀', '́', '̂', '̃', '̈', '̧'].contains c

/-- Embeds `_strip_accents` (lines 22-24): NFD-decompose and drop combining marks. -/
def stripAccents (s : String) : String :=
  ⟨(s.data.map nfdChar).flatten.filter fun c => !(isCombiningMark c)⟩

/-- Python `str.strip()`: remove leading and trailing whitespace. -/
def pyStrip (s : String) : String :=
  ⟨((s.data.dropWhile Char.isWhitespace).reverse.dropWhile Char.isWhitespace).reverse⟩

/-- Python `str.lower()`, modelled character-wise (ASCII case folding, which is
all the post-NFD repertoire needs). -/
def pyLower (s : String) : String :=
  ⟨s.data.map Char.toLower⟩

/-- The fixed 12-entry month-prefix table `mapa` (lines 31-35). -/
def mapa : List (String × String) :=
  [("jan", "Janeiro"), ("fev", "Fevereiro"), ("mar", "Marco"), ("abr", "Abril"),
   ("mai", "Maio"), ("jun", "Junho"), ("jul", "Julho"), ("ago", "Agosto"),
   ("set", "Setembro"), ("out", "Outubro"), ("nov", "Novembro"), ("dez", "Dezembro")]

/-- A Python value reaching `canonical_month`: either a `str`, or a non-string
value carried by its `str(x)` form (which is all the function uses of it). -/
inductive PyVal where
  | s (v : String)
  | nonStr (reprStr : String)
deriving DecidableEq

/-- The lookup key the code actually computes (line 29-30):
`_strip_accents(name).strip().lower()[:3]`. -/
def monthKey (name : String) : String :=
  ⟨(pyLower (pyStrip (stripAccents name))).data.take 3⟩

/-- Embeds `canonical_month` (lines 26-36): non-strings are stringified and
returned; strings are keyed by `monthKey` into `mapa`, defaulting to the input. -/
def canonical_month : PyVal → String
  | .nonStr r => r
  | .s name => (mapa.lookup (monthKey name)).getD name

/-- Modelled from the spec: the lookup key as the claims describe it — the first
3 characters of the accent-stripped, lower-cased input, with no whitespace
strip (spec §4.1 mentions no `strip`). Kept only to compare against `monthKey`. -/
def claimKey (name : String) : String :=
  ⟨(pyLower (stripAccents name)).data.take 3⟩

/-- The loaded spreadsheet (the frame of line 46 after the `dropna` calls):
column labels (the first is the identifier column's label) and rows, each row
an indicator name plus its cells; `none` models NaN. -/
structure WideTable where
  cols : List PyVal
  rows : List (String × List (Option ℚ))
deriving DecidableEq

/-- The renamed frame (after line 64): string column names for the non-identifier
columns, same rows. -/
structure DF where
  cols : List String
  rows : List (String × List (Option ℚ))
deriving DecidableEq

/-- The script's abort conditions: pandas `ValueError` from the column
assignment, Python `IndexError` from `indicadores[1]`, and the two
`st.warning` + `st.stop` states of lines 95-97 and 110-112. -/
inductive PipeError where
  | lengthMismatch
  | indexError
  | tooFewIndicators
  | emptyResult
deriving DecidableEq

/-- The renaming loop of lines 60-63: consecutive pairs of raw month columns,
each pair named `{canonical month of the pair's first label}.Hibrido` then
`….Zebu`; a trailing unpaired label yields nothing (the loop steps by 2). -/
def renamedMesCols : List PyVal → List String
  | a :: _ :: rest =>
      (canonical_month a ++ ".Hibrido") :: (canonical_month a ++ ".Zebu") :: renamedMesCols rest
  | _ => []

/-- Lines 52-64: take the labels after the first, truncate when odd (line 57),
build `novos_nomes`, and perform `df.columns = novos_nomes` — which pandas
only accepts when the new list is exactly as long as the frame is wide,
raising `ValueError` (here `.lengthMismatch`) otherwise. -/
def setColumns (t : WideTable) : Except PipeError DF :=
  match t.cols with
  | [] => .error .indexError
  | _ :: mesCols =>
      let mesCols' := if mesCols.length % 2 ≠ 0 then mesCols.dropLast else mesCols
      let nn := renamedMesCols mesCols'
      if 1 + nn.length = t.cols.length then .ok ⟨nn, t.rows⟩ else .error .lengthMismatch

/-- `df.melt(id_vars=[indicador_col], var_name="Mes_Raca", value_name="Valor")`
(line 68): one record `(indicator, column name, cell)` per non-identifier column
and row, stacked column-major as pandas does. -/
def melt : List String → List (String × List (Option ℚ)) → List (String × String × Option ℚ)
  | [], _ => []
  | c :: cs, rows =>
      (rows.map fun r => (r.1, c, r.2.headD none)) ++ melt cs (rows.map fun r => (r.1, r.2.tail))

/-- Split a character list at its first dot: the part before it and, when a dot
exists, the part after it. -/
def breakDot : List Char → List Char × Option (List Char)
  | [] => ([], none)
  | c :: cs =>
      if c = '.' then ([], some cs)
      else
        let r := breakDot cs
        (c :: r.1, r.2)

/-- Python `s.split(".", maxsplit 1)` expanded to two columns (line 69): the part
before the first dot, and the rest (`none` when there is no dot, as pandas
fills the missing column with NaN). -/
def splitDot1 (s : String) : String × Option String :=
  match breakDot s.data with
  | (a, none) => (⟨a⟩, none)
  | (a, some b) => (⟨a⟩, some ⟨b⟩)

instance {ε α : Type} [DecidableEq ε] [DecidableEq α] : DecidableEq (Except ε α) := fun a b =>
  match a, b with
  | .error e, .error e' =>
      if h : e = e' then isTrue (by rw [h]) else isFalse (fun hc => h (Except.error.inj hc))
  | .ok v, .ok v' =>
      if h : v = v' then isTrue (by rw [h]) else isFalse (fun hc => h (Except.ok.inj hc))
  | .error _, .ok _ => isFalse (fun hc => Except.noConfusion hc)
  | .ok _, .error _ => isFalse (fun hc => Except.noConfusion hc)

/-- One melted, split record: `(Indicador, Mes_nome, Raca, Valor)`. -/
structure LongRecord where
  indicador : String
  mes : String
  raca : String
  valor : Option ℚ
deriving DecidableEq

/-- Lines 68-73: melt, split `Mes_Raca` on the first dot, and keep only the rows
whose `Raca` is exactly `"Zebu"` or `"Hibrido"` (`df_final`). -/
def dfFinal (df : DF) : List LongRecord :=
  (melt df.cols df.rows).filterMap fun r =>
    (splitDot1 r.2.1).2.bind fun rc =>
      if rc == "Zebu" || rc == "Hibrido"
      then some ⟨r.1, (splitDot1 r.2.1).1, rc, r.2.2⟩ else none

/-- Lines 102-106: one indicator's filtered projection `df_ind` — records with
this indicator, a chosen month and a chosen breed, projected to
`(Mes_nome, Raca, Valor)`. -/
def filterProj (records : List LongRecord) (ind : String) (meses racas : List String) :
    List (String × String × Option ℚ) :=
  (records.filter fun r =>
      r.indicador == ind && meses.contains r.mes && racas.contains r.raca).map
    fun r => (r.mes, r.raca, r.valor)

/-- A row of the joined comparison table: its `(Mes_nome, Raca)` key and one
`Valor_<ind>` cell per indicator merged so far. -/
abbrev MergedRow := (String × String) × List (Option ℚ)

/-- The `(Mes_nome, Raca)` join key of a projected record. -/
def keyOfTriple (r : String × String × Option ℚ) : String × String := (r.1, r.2.1)

/-- The first loop iteration (line 107, `df_merge is None`): `df_merge := df_ind`. -/
def toMerged (R : List (String × String × Option ℚ)) : List MergedRow :=
  R.map fun r => (keyOfTriple r, [r.2.2])

/-- `pd.merge(df_merge, df_ind, on=["Mes_nome","Raca"], how="outer")`
(lines 107-108), `n` being the width of the left frame's value part: every left
row is paired with each matching right record (NaN-padded when none matches),
and right records whose key the left frame lacks are appended NaN-padded on
the left. Row order of the merge is irrelevant downstream — line 116 sorts. -/
def outerMerge (n : Nat) (L : List MergedRow) (R : List (String × String × Option ℚ)) :
    List MergedRow :=
  (L.flatMap fun row =>
    if (R.filter fun r => keyOfTriple r == row.1).isEmpty
    then [(row.1, row.2 ++ [(none : Option ℚ)])]
    else (R.filter fun r => keyOfTriple r == row.1).map fun r => (row.1, row.2 ++ [r.2.2]))
  ++ ((R.filter fun r => !(L.any fun row => row.1 == keyOfTriple r)).map fun r =>
      (keyOfTriple r, List.replicate n (none : Option ℚ) ++ [r.2.2]))

/-- The tail of the merge loop of lines 100-108, accumulating over the remaining
selected indicators (`n` = indicators merged so far). -/
def dfMergeGo (records : List LongRecord) (meses racas : List String) :
    List MergedRow → Nat → List String → List MergedRow
  | acc, _, [] => acc
  | acc, n, ind :: rest =>
      dfMergeGo records meses racas
        (outerMerge n acc (filterProj records ind meses racas)) (n + 1) rest

/-- The whole merge loop of lines 100-108: `df_merge` over the selected
indicators (`[]` plays the role of the initial `None`, which line 110 treats
exactly like an empty frame). -/
def dfMergeFun (records : List LongRecord) (meses racas : List String) :
    List String → List MergedRow
  | [] => []
  | ind :: rest =>
      dfMergeGo records meses racas (toMerged (filterProj records ind meses racas)) 1 rest

/-- Position of the first occurrence of `x` (the length when absent) — the
Categorical code of line 114-115. -/
def posOf (x : String) : List String → Nat
  | [] => 0
  | a :: l => if a = x then 0 else posOf x l + 1

/-- Lexicographic comparison of character lists by code point — Python's
string `<=`. -/
def charListLE : List Char → List Char → Bool
  | [], _ => true
  | _ :: _, [] => false
  | a :: as, b :: bs =>
      if a.toNat < b.toNat then true
      else if b.toNat < a.toNat then false
      else charListLE as bs

/-- Python's `str` ordering (code-point lexicographic), as a proposition. -/
def strLE (a b : String) : Prop := charListLE a.data b.data = true

instance : DecidableRel strLE := fun a b =>
  inferInstanceAs (Decidable (charListLE a.data b.data = true))

/-- The sort key order of line 116: primarily the month's position within the
user-chosen `meses_escolhidos` (the ordered Categorical of lines 114-115),
secondarily the breed label's lexicographic order. -/
def mergeLE (meses : List String) (a b : MergedRow) : Prop :=
  posOf a.1.1 meses < posOf b.1.1 meses ∨
    (posOf a.1.1 meses = posOf b.1.1 meses ∧ strLE a.1.2 b.1.2)

instance (meses : List String) : DecidableRel (mergeLE meses) := fun a b =>
  inferInstanceAs (Decidable (posOf a.1.1 meses < posOf b.1.1 meses ∨
    (posOf a.1.1 meses = posOf b.1.1 meses ∧ strLE a.1.2 b.1.2)))

instance (meses : List String) : IsTotal MergedRow (mergeLE meses) where
  total a b := by
    have htot : ∀ x y : List Char, charListLE x y = true ∨ charListLE y x = true := by
      intro x
      induction x with
      | nil => intro y; exact Or.inl rfl
      | cons c cs ih =>
        intro y
        cases y with
        | nil => exact Or.inr rfl
        | cons d ds =>
          by_cases h1 : c.toNat < d.toNat
          · exact Or.inl (by simp [charListLE, h1])
          · by_cases h2 : d.toNat < c.toNat
            · exact Or.inr (by simp [charListLE, h2])
            · rcases ih ds with h | h
              · exact Or.inl (by simp [charListLE, h1, h2, h])
              · exact Or.inr (by simp [charListLE, h1, h2, h])
    unfold mergeLE
    rcases Nat.lt_trichotomy (posOf a.1.1 meses) (posOf b.1.1 meses) with h | h | h
    · exact Or.inl (Or.inl h)
    · rcases htot a.1.2.data b.1.2.data with h' | h'
      · exact Or.inl (Or.inr ⟨h, h'⟩)
      · exact Or.inr (Or.inr ⟨h.symm, h'⟩)
    · exact Or.inr (Or.inl h)

instance (meses : List String) : IsTrans MergedRow (mergeLE meses) where
  trans a b c hab hbc := by
    have htr : ∀ x y z : List Char,
        charListLE x y = true → charListLE y z = true → charListLE x z = true := by
      intro x
      induction x with
      | nil => intro y z _ _; rfl
      | cons cx xs ih =>
        intro y z hxy hyz
        cases y with
        | nil => simp [charListLE] at hxy
        | cons cy ys =>
          cases z with
          | nil => simp [charListLE] at hyz
          | cons cz zs =>
            simp only [charListLE] at hxy hyz ⊢
            by_cases h1 : cx.toNat < cy.toNat
            · by_cases h2 : cy.toNat < cz.toNat
              · have h : cx.toNat < cz.toNat := Nat.lt_trans h1 h2
                simp [h]
              · by_cases h3 : cz.toNat < cy.toNat
                · simp [h2, h3] at hyz
                · have h : cx.toNat < cz.toNat := by omega
                  simp [h]
            · by_cases h0 : cy.toNat < cx.toNat
              · simp [h1, h0] at hxy
              · rw [if_neg h1, if_neg h0] at hxy
                by_cases h2 : cy.toNat < cz.toNat
                · have h : cx.toNat < cz.toNat := by omega
                  simp [h]
                · by_cases h3 : cz.toNat < cy.toNat
                  · simp [h2, h3] at hyz
                  · rw [if_neg h2, if_neg h3] at hyz
                    have h2' : ¬ cx.toNat < cz.toNat := by omega
                    have h3' : ¬ cz.toNat < cx.toNat := by omega
                    rw [if_neg h2', if_neg h3']
                    exact ih ys zs hxy hyz
    unfold mergeLE at *
    rcases hab with h1 | ⟨h1, h1'⟩ <;> rcases hbc with h2 | ⟨h2, h2'⟩
    · exact Or.inl (h1.trans h2)
    · exact Or.inl (h2 ▸ h1)
    · exact Or.inl (h1 ▸ h2)
    · exact Or.inr ⟨h1.trans h2, htr _ _ _ h1' h2'⟩

/-- `df_merge.sort_values(["Mes_nome","Raca"])` of line 116, modelled as a sort
realizing the key order `mergeLE`. -/
def sortMerged (meses : List String) (m : List MergedRow) : List MergedRow :=
  List.insertionSort (mergeLE meses) m

/-- Python `round(x, 2)` (line 122) idealized over exact rationals: round
`100 * q` half to even, carried out on the numerator and denominator so that
every step is integer arithmetic (binary floating-point representation effects
are not modelled). `n / d` is the scaled value, `f` its floor, `rem / d` its
fractional part. -/
def roundHalfEvenAt2 (q : ℚ) : ℤ :=
  let n := 100 * q.num
  let d := (q.den : ℤ)
  let f := Int.fdiv n d
  let rem := n - f * d
  if 2 * rem < d then f
  else if d < 2 * rem then f + 1
  else if f % 2 = 0 then f else f + 1

/-- Round a rational to 2 decimal places, Python `round(·, 2)` style. -/
def round2 (q : ℚ) : ℚ := mkRat (roundHalfEvenAt2 q) 100

/-- Lines 119-122 (`df_show`): each non-null numeric cell is rounded to 2
decimal places; nulls pass through untouched; key columns are not numeric. -/
def dfShow (m : List MergedRow) : List MergedRow :=
  m.map fun row => (row.1, row.2.map fun v => v.map round2)

/-- `pandas.unique` order: first occurrences, in order. -/
def uniqueFirst (l : List String) : List String :=
  l.foldl (fun acc a => if a ∈ acc then acc else acc ++ [a]) []

/-- Line 83: `sorted(df_final[indicador_col].dropna().unique())` — the distinct
indicator names of the long table, sorted lexicographically. -/
def indicadoresOf (records : List LongRecord) : List String :=
  List.insertionSort strLE (uniqueFirst (records.map (·.indicador)))

/-- The canonical 12-month order of lines 76-79. -/
def ordemMeses : List String :=
  ["Janeiro", "Fevereiro", "Marco", "Abril", "Maio", "Junho",
   "Julho", "Agosto", "Setembro", "Outubro", "Novembro", "Dezembro"]

/-- Line 80: the canonical months that actually occur in the long table. -/
def mesesDisponiveis (records : List LongRecord) : List String :=
  ordemMeses.filter fun m => records.any fun r => r.mes == m

/-- The script from the column renaming through the sorted comparison table
(lines 52-116), with the user's three multiselect choices as parameters.
The `indicadores` default `[indicadores[0], indicadores[1]]` (line 89) is
evaluated while the widget renders, before any selection is inspected, so a
table with fewer than two distinct indicators dies there with `IndexError`. -/
def runPipeline (t : WideTable) (selInds selMeses selRacas : List String) :
    Except PipeError (List MergedRow) :=
  match setColumns t with
  | .error e => .error e
  | .ok df =>
      if (indicadoresOf (dfFinal df)).length < 2 then .error .indexError
      else if selInds.length < 2 then .error .tooFewIndicators
      else if (dfMergeFun (dfFinal df) selMeses selRacas selInds).isEmpty then
        .error .emptyResult
      else .ok (sortMerged selMeses (dfMergeFun (dfFinal df) selMeses selRacas selInds))

/-- The non-null `(Month, Breed, Value)` triples a renamed wide row carries,
values taken up to 2-decimal rounding: one triple per non-null cell under a
`Month.Breed` column. -/
def wideTriples (cols : List String) (vs : List (Option ℚ)) : List (String × String × ℚ) :=
  (cols.zip vs).filterMap fun cv =>
    (splitDot1 cv.1).2.bind fun rc => cv.2.map fun q => ((splitDot1 cv.1).1, rc, round2 q)

/-- The non-null `(Month, Breed, Value)` triples the joined table carries in its
`j`-th value column, values up to 2-decimal rounding. -/
def pivotTriples (out : List MergedRow) (j : Nat) : List (String × String × ℚ) :=
  out.filterMap fun row => (row.2.getD j none).map fun q => (row.1.1, row.1.2, round2 q)

/-! ### List helpers -/

theorem getD_default_of_le {α : Type} (l : List α) (d : α) (j : Nat) (h : l.length ≤ j) :
    l.getD j d = d := by
  simp [List.getD_eq_getElem?_getD, List.getElem?_eq_none h]

theorem getD_append_self {α : Type} (l : List α) (w d : α) : (l ++ [w]).getD l.length d = w := by
  simp [List.getD_eq_getElem?_getD, List.getElem?_append]

theorem getD_replicate_none (n j : Nat) :
    (List.replicate n (none : Option ℚ)).getD j none = none := by
  induction n generalizing j with
  | zero => rfl
  | succ n ih =>
    cases j with
    | zero => rfl
    | succ j => exact ih j

theorem tail_getD {α : Type} (l : List α) (j : Nat) (d : α) :
    l.tail.getD j d = l.getD (j + 1) d := by
  cases l <;> rfl

theorem headD_eq_getD {α : Type} (l : List α) (d : α) : l.headD d = l.getD 0 d := by
  cases l <;> rfl

theorem posOf_cons_self (x : String) (l : List String) : posOf x (x :: l) = 0 := by
  simp [posOf]

theorem posOf_cons_ne {a x : String} (l : List String) (h : a ≠ x) :
    posOf x (a :: l) = posOf x l + 1 := by
  simp [posOf, h]

theorem posOf_lt_length {x : String} {l : List String} (h : x ∈ l) : posOf x l < l.length := by
  induction l with
  | nil => cases h
  | cons a l ih =>
    by_cases hax : a = x
    · subst hax; simp [posOf]
    · rcases List.mem_cons.mp h with h' | h'
      · exact absurd h'.symm hax
      · simpa [posOf, hax] using ih h'

theorem getD_posOf {x : String} {l : List String} (d : String) (h : x ∈ l) :
    l.getD (posOf x l) d = x := by
  induction l with
  | nil => cases h
  | cons a l ih =>
    by_cases hax : a = x
    · subst hax; simp [posOf]
    · rcases List.mem_cons.mp h with h' | h'
      · exact absurd h'.symm hax
      · rw [posOf_cons_ne l hax]
        simpa using ih h'

theorem nodup_keys_eq {rows : List (String × List (Option ℚ))} {x : String}
    {u w : List (Option ℚ)} (hnd : (rows.map Prod.fst).Nodup)
    (hu : (x, u) ∈ rows) (hw : (x, w) ∈ rows) : u = w := by
  induction rows with
  | nil => cases hu
  | cons a rows ih =>
    rw [List.map_cons, List.nodup_cons] at hnd
    rcases List.mem_cons.mp hu with h1 | h1 <;> rcases List.mem_cons.mp hw with h2 | h2
    · exact congrArg Prod.snd (h1.trans h2.symm)
    · exfalso
      apply hnd.1
      rw [← h1]
      exact List.mem_map.mpr ⟨(x, w), h2, rfl⟩
    · exfalso
      apply hnd.1
      rw [← h2]
      exact List.mem_map.mpr ⟨(x, u), h1, rfl⟩
    · exact ih hnd.2 h1 h2

/-! ### Melt and filter lemmas -/

theorem melt_complete :
    ∀ (cols : List String) (rows : List (String × List (Option ℚ)))
      (a : String × List (Option ℚ)) (j : Nat), a ∈ rows → j < cols.length →
      (a.1, cols.getD j "", a.2.getD j none) ∈ melt cols rows := by
  intro cols
  induction cols with
  | nil => intro rows a j _ hj; simp at hj
  | cons c cs ih =>
    intro rows a j ha hj
    simp only [melt]
    cases j with
    | zero =>
      apply List.mem_append_left
      refine List.mem_map.mpr ⟨a, ha, ?_⟩
      show (a.1, c, a.2.headD none) = (a.1, (c :: cs).getD 0 "", a.2.getD 0 none)
      rw [headD_eq_getD]
      rfl
    | succ j' =>
      apply List.mem_append_right
      have ha' := List.mem_map_of_mem (fun r => (r.1, r.2.tail)) ha
      have h := ih (rows.map fun r => (r.1, r.2.tail)) (a.1, a.2.tail) j' ha'
        (by simpa using Nat.lt_of_succ_lt_succ hj)
      rw [tail_getD] at h
      exact h

theorem melt_sound :
    ∀ (cols : List String) (rows : List (String × List (Option ℚ)))
      (r : String × String × Option ℚ), r ∈ melt cols rows →
      ∃ a ∈ rows, r.1 = a.1 ∧
        ∃ j, j < cols.length ∧ r.2.1 = cols.getD j "" ∧ r.2.2 = a.2.getD j none := by
  intro cols
  induction cols with
  | nil => intro rows r h; simp [melt] at h
  | cons c cs ih =>
    intro rows r h
    simp only [melt] at h
    rcases List.mem_append.mp h with h1 | h2
    · rcases List.mem_map.mp h1 with ⟨a, ha, rfl⟩
      exact ⟨a, ha, rfl, 0, by simp, rfl, headD_eq_getD _ _⟩
    · rcases ih _ r h2 with ⟨a', ha', h1', j, hj, h2', h3'⟩
      rcases List.mem_map.mp ha' with ⟨a, ha, rfl⟩
      refine ⟨a, ha, h1', j + 1, by simpa using Nat.succ_lt_succ hj, h2', ?_⟩
      rw [h3', tail_getD]

theorem mem_dfFinal {df : DF} {rec : LongRecord} :
    rec ∈ dfFinal df ↔
      ∃ r ∈ melt df.cols df.rows,
        splitDot1 r.2.1 = (rec.mes, some rec.raca) ∧
        (rec.raca = "Zebu" ∨ rec.raca = "Hibrido") ∧
        rec.indicador = r.1 ∧ rec.valor = r.2.2 := by
  unfold dfFinal
  rw [List.mem_filterMap]
  constructor
  · rintro ⟨r, hr, hmatch⟩
    refine ⟨r, hr, ?_⟩
    rcases hsp : splitDot1 r.2.1 with ⟨mn, rc?⟩
    rw [hsp] at hmatch
    cases rc? with
    | none => simp at hmatch
    | some rc =>
      simp only [Option.some_bind] at hmatch
      by_cases hz : (rc == "Zebu" || rc == "Hibrido") = true
      · rw [if_pos hz] at hmatch
        have hrec := Option.some.inj hmatch
        subst hrec
        simp only [Bool.or_eq_true, beq_iff_eq] at hz
        exact ⟨rfl, hz, rfl, rfl⟩
      · rw [if_neg hz] at hmatch
        cases hmatch
  · rintro ⟨r, hr, hsp, hbr, hind, hval⟩
    refine ⟨r, hr, ?_⟩
    rw [hsp]
    have hz : (rec.raca == "Zebu" || rec.raca == "Hibrido") = true := by
      rcases hbr with h | h <;> simp [h]
    simp only [Option.some_bind]
    rw [if_pos hz]
    cases rec
    simp only at hind hval
    subst hind
    subst hval
    rfl

theorem mem_filterProj {records : List LongRecord} {i : String} {meses racas : List String}
    {t : String × String × Option ℚ} :
    t ∈ filterProj records i meses racas ↔
      ∃ rec ∈ records, rec.indicador = i ∧ rec.mes ∈ meses ∧ rec.raca ∈ racas ∧
        t = (rec.mes, rec.raca, rec.valor) := by
  unfold filterProj
  rw [List.mem_map]
  constructor
  · rintro ⟨rec, hrec, rfl⟩
    rw [List.mem_filter] at hrec
    obtain ⟨hmem, hcond⟩ := hrec
    simp only [Bool.and_eq_true, beq_iff_eq, List.contains, List.elem_iff] at hcond
    exact ⟨rec, hmem, hcond.1.1, hcond.1.2, hcond.2, rfl⟩
  · rintro ⟨rec, hmem, h1, h2, h3, rfl⟩
    refine ⟨rec, List.mem_filter.mpr ⟨hmem, ?_⟩, rfl⟩
    simp only [Bool.and_eq_true, beq_iff_eq, List.contains, List.elem_iff]
    exact ⟨⟨h1, h2⟩, h3⟩

/-! ### Outer-merge lemmas -/

theorem outerMerge_widths {n : Nat} {L : List MergedRow} {R : List (String × String × Option ℚ)}
    (h : ∀ row ∈ L, row.2.length = n) :
    ∀ row ∈ outerMerge n L R, row.2.length = n + 1 := by
  intro row hrow
  unfold outerMerge at hrow
  rcases List.mem_append.mp hrow with h1 | h2
  · rcases List.mem_flatMap.mp h1 with ⟨lrow, hl, hin⟩
    by_cases hms : (R.filter fun r => keyOfTriple r == lrow.1).isEmpty = true
    · rw [if_pos hms, List.mem_singleton] at hin
      subst hin
      simp [h lrow hl]
    · rw [if_neg hms] at hin
      rcases List.mem_map.mp hin with ⟨r, _, rfl⟩
      simp [h lrow hl]
  · rcases List.mem_map.mp h2 with ⟨r, _, rfl⟩
    simp

theorem mem_outerMerge_left {n : Nat} {L : List MergedRow} {R : List (String × String × Option ℚ)}
    {row : MergedRow} (hrow : row ∈ L) :
    ∃ w, (row.1, row.2 ++ [w]) ∈ outerMerge n L R := by
  by_cases hms : (R.filter fun r => keyOfTriple r == row.1).isEmpty = true
  · refine ⟨none, List.mem_append_left _ ?_⟩
    refine List.mem_flatMap.mpr ⟨row, hrow, ?_⟩
    rw [if_pos hms]
    exact List.mem_singleton.mpr rfl
  · have hne : R.filter (fun r => keyOfTriple r == row.1) ≠ [] :=
      List.isEmpty_eq_false.mp (Bool.of_not_eq_true hms)
    rcases List.exists_mem_of_ne_nil _ hne with ⟨r, hr⟩
    refine ⟨r.2.2, List.mem_append_left _ ?_⟩
    refine List.mem_flatMap.mpr ⟨row, hrow, ?_⟩
    rw [if_neg hms]
    exact List.mem_map.mpr ⟨r, hr, rfl⟩

theorem mem_outerMerge_right {n : Nat} {L : List MergedRow} {R : List (String × String × Option ℚ)}
    {r : String × String × Option ℚ} (hr : r ∈ R) (hw : ∀ row ∈ L, row.2.length = n) :
    ∃ row ∈ outerMerge n L R, row.1 = keyOfTriple r ∧ row.2.getD n none = r.2.2 := by
  by_cases hpres : ∃ lrow ∈ L, lrow.1 = keyOfTriple r
  · obtain ⟨lrow, hl, hkey⟩ := hpres
    have hrmem : r ∈ R.filter fun x => keyOfTriple x == lrow.1 :=
      List.mem_filter.mpr ⟨hr, by rw [hkey]; exact beq_self_eq_true _⟩
    have hms : ¬ (R.filter fun x => keyOfTriple x == lrow.1).isEmpty = true := by
      intro hemp
      rw [List.isEmpty_iff.mp hemp] at hrmem
      cases hrmem
    refine ⟨(lrow.1, lrow.2 ++ [r.2.2]), List.mem_append_left _ ?_, hkey, ?_⟩
    · refine List.mem_flatMap.mpr ⟨lrow, hl, ?_⟩
      rw [if_neg hms]
      exact List.mem_map.mpr ⟨r, hrmem, rfl⟩
    · rw [← hw lrow hl]
      exact getD_append_self _ _ _
  · have hfil : r ∈ R.filter fun x => !(L.any fun row => row.1 == keyOfTriple x) := by
      refine List.mem_filter.mpr ⟨hr, ?_⟩
      rw [Bool.not_eq_true']
      rw [List.any_eq_false]
      intro lrow hl hbeq
      exact hpres ⟨lrow, hl, beq_iff_eq.mp hbeq⟩
    refine ⟨(keyOfTriple r, List.replicate n none ++ [r.2.2]), List.mem_append_right _ ?_, rfl, ?_⟩
    · exact List.mem_map.mpr ⟨r, hfil, rfl⟩
    · have h := getD_append_self (List.replicate n (none : Option ℚ)) r.2.2 none
      rw [List.length_replicate] at h
      exact h

theorem outerMerge_null_at {n : Nat} {L : List MergedRow} {R : List (String × String × Option ℚ)}
    {k : String × String} (hnone : ∀ r ∈ R, keyOfTriple r ≠ k)
    (hw : ∀ row ∈ L, row.2.length = n) :
    ∀ row ∈ outerMerge n L R, row.1 = k → row.2.getD n none = none := by
  intro row hrow hk
  unfold outerMerge at hrow
  rcases List.mem_append.mp hrow with h1 | h2
  · rcases List.mem_flatMap.mp h1 with ⟨lrow, hl, hin⟩
    by_cases hms : (R.filter fun r => keyOfTriple r == lrow.1).isEmpty = true
    · rw [if_pos hms, List.mem_singleton] at hin
      subst hin
      rw [← hw lrow hl]
      exact getD_append_self _ _ _
    · rw [if_neg hms] at hin
      rcases List.mem_map.mp hin with ⟨r, hrf, rfl⟩
      exfalso
      rcases List.mem_filter.mp hrf with ⟨hrR, hbeq⟩
      exact hnone r hrR (by rw [beq_iff_eq.mp hbeq]; exact hk)
  · rcases List.mem_map.mp h2 with ⟨r, hrf, rfl⟩
    exfalso
    exact hnone r (List.mem_filter.mp hrf).1 hk

theorem outerMerge_null_preserve {n j : Nat} {L : List MergedRow}
    {R : List (String × String × Option ℚ)} {k : String × String} (hj : j < n)
    (hw : ∀ row ∈ L, row.2.length = n)
    (hnull : ∀ row ∈ L, row.1 = k → row.2.getD j none = none) :
    ∀ row ∈ outerMerge n L R, row.1 = k → row.2.getD j none = none := by
  intro row hrow hk
  unfold outerMerge at hrow
  rcases List.mem_append.mp hrow with h1 | h2
  · rcases List.mem_flatMap.mp h1 with ⟨lrow, hl, hin⟩
    by_cases hms : (R.filter fun r => keyOfTriple r == lrow.1).isEmpty = true
    · rw [if_pos hms, List.mem_singleton] at hin
      subst hin
      rw [List.getD_append _ _ _ _ (by rw [hw lrow hl]; exact hj)]
      exact hnull lrow hl hk
    · rw [if_neg hms] at hin
      rcases List.mem_map.mp hin with ⟨r, _, rfl⟩
      rw [List.getD_append _ _ _ _ (by rw [hw lrow hl]; exact hj)]
      exact hnull lrow hl hk
  · rcases List.mem_map.mp h2 with ⟨r, _, rfl⟩
    rw [List.getD_append _ _ _ _ (by rw [List.length_replicate]; exact hj)]
    exact getD_replicate_none _ _

theorem outerMerge_sound {records : List LongRecord} {meses racas : List String}
    {done : List String} {acc : List MergedRow} {ind : String}
    (hw : ∀ row ∈ acc, row.2.length = done.length)
    (hs : ∀ row ∈ acc, ∀ j, j < done.length → ∀ q, row.2.getD j none = some q →
      (row.1.1, row.1.2, some q) ∈ filterProj records (done.getD j "") meses racas) :
    ∀ row ∈ outerMerge done.length acc (filterProj records ind meses racas),
      ∀ j, j < (done ++ [ind]).length → ∀ q, row.2.getD j none = some q →
      (row.1.1, row.1.2, some q) ∈ filterProj records ((done ++ [ind]).getD j "") meses racas := by
  intro row hrow j hj q hq
  have hjlen : j < done.length + 1 := by simpa using hj
  unfold outerMerge at hrow
  rcases List.mem_append.mp hrow with h1 | h2
  · rcases List.mem_flatMap.mp h1 with ⟨lrow, hl, hin⟩
    by_cases hms : ((filterProj records ind meses racas).filter
        fun r => keyOfTriple r == lrow.1).isEmpty = true
    · rw [if_pos hms, List.mem_singleton] at hin
      subst hin
      rcases Nat.lt_succ_iff_lt_or_eq.mp hjlen with hlt | heq
      · rw [List.getD_append _ _ _ _ (by rw [hw lrow hl]; exact hlt)] at hq
        rw [List.getD_append _ _ _ _ hlt]
        exact hs lrow hl j hlt q hq
      · subst heq
        have hnil : (lrow.2 ++ [(none : Option ℚ)]).getD done.length none = none := by
          rw [← hw lrow hl]
          exact getD_append_self _ _ _
        rw [hnil] at hq
        cases hq
    · rw [if_neg hms] at hin
      rcases List.mem_map.mp hin with ⟨r, hrf, rfl⟩
      rcases List.mem_filter.mp hrf with ⟨hrR, hbeq⟩
      rcases Nat.lt_succ_iff_lt_or_eq.mp hjlen with hlt | heq
      · rw [List.getD_append _ _ _ _ (by rw [hw lrow hl]; exact hlt)] at hq
        rw [List.getD_append _ _ _ _ hlt]
        exact hs lrow hl j hlt q hq
      · subst heq
        have hgd : (lrow.2 ++ [r.2.2]).getD done.length none = r.2.2 := by
          rw [← hw lrow hl]
          exact getD_append_self _ _ _
        rw [hgd] at hq
        have hkey : keyOfTriple r = lrow.1 := beq_iff_eq.mp hbeq
        rw [getD_append_self]
        rw [← hkey]
        show (r.1, r.2.1, some q) ∈ filterProj records ind meses racas
        rw [← hq]
        exact hrR
  · rcases List.mem_map.mp h2 with ⟨r, hrf, rfl⟩
    rcases List.mem_filter.mp hrf with ⟨hrR, _⟩
    rcases Nat.lt_succ_iff_lt_or_eq.mp hjlen with hlt | heq
    · rw [List.getD_append _ _ _ _ (by rw [List.length_replicate]; exact hlt)] at hq
      rw [getD_replicate_none] at hq
      cases hq
    · subst heq
      have hgd : (List.replicate done.length (none : Option ℚ) ++ [r.2.2]).getD
          done.length none = r.2.2 := by
        have h := getD_append_self (List.replicate done.length (none : Option ℚ)) r.2.2 none
        rw [List.length_replicate] at h
        exact h
      rw [hgd] at hq
      rw [getD_append_self]
      show (r.1, r.2.1, some q) ∈ filterProj records ind meses racas
      rw [← hq]
      exact hrR

/-! ### Merge-loop lemmas -/

theorem dfMergeGo_widths (records : List LongRecord) (meses racas : List String) :
    ∀ (rest : List String) (acc : List MergedRow) (n : Nat),
      (∀ row ∈ acc, row.2.length = n) →
      ∀ row ∈ dfMergeGo records meses racas acc n rest, row.2.length = n + rest.length := by
  intro rest
  induction rest with
  | nil =>
    intro acc n hw row hrow
    simp only [dfMergeGo] at hrow
    simpa using hw row hrow
  | cons ind rest ih =>
    intro acc n hw row hrow
    simp only [dfMergeGo] at hrow
    have h := ih _ _ (outerMerge_widths hw) row hrow
    simp only [List.length_cons]
    omega

theorem dfMergeGo_extend (records : List LongRecord) (meses racas : List String) :
    ∀ (rest : List String) (acc : List MergedRow) (n : Nat) (row : MergedRow),
      row ∈ acc → (∀ r ∈ acc, r.2.length = n) →
      ∃ row' ∈ dfMergeGo records meses racas acc n rest,
        row'.1 = row.1 ∧ ∀ j, j < n → row'.2.getD j none = row.2.getD j none := by
  intro rest
  induction rest with
  | nil =>
    intro acc n row hrow _
    exact ⟨row, by simpa [dfMergeGo] using hrow, rfl, fun j _ => rfl⟩
  | cons ind rest ih =>
    intro acc n row hrow hw
    rcases @mem_outerMerge_left n acc (filterProj records ind meses racas) row hrow with ⟨w, hmem⟩
    rcases ih (outerMerge n acc (filterProj records ind meses racas)) (n + 1)
        (row.1, row.2 ++ [w]) hmem (outerMerge_widths hw) with ⟨row', hr', hkey, hget⟩
    refine ⟨row', ?_, hkey, fun j hj => ?_⟩
    · simp only [dfMergeGo]
      exact hr'
    · rw [hget j (by omega)]
      exact List.getD_append _ _ _ _ (by rw [hw row hrow]; exact hj)

theorem dfMergeGo_null_preserve (records : List LongRecord) (meses racas : List String) :
    ∀ (rest : List String) (acc : List MergedRow) (n j : Nat) (k : String × String),
      j < n → (∀ r ∈ acc, r.2.length = n) →
      (∀ row ∈ acc, row.1 = k → row.2.getD j none = none) →
      ∀ row ∈ dfMergeGo records meses racas acc n rest, row.1 = k →
        row.2.getD j none = none := by
  intro rest
  induction rest with
  | nil =>
    intro acc n j k _ _ hnull row hrow hk
    simp only [dfMergeGo] at hrow
    exact hnull row hrow hk
  | cons ind rest ih =>
    intro acc n j k hj hw hnull row hrow hk
    simp only [dfMergeGo] at hrow
    exact ih _ _ _ _ (by omega) (outerMerge_widths hw)
      (outerMerge_null_preserve hj hw hnull) row hrow hk

theorem dfMergeGo_populate (records : List LongRecord) (meses racas : List String) :
    ∀ (rest : List String) (acc : List MergedRow) (n : Nat) (i : String)
      (r : String × String × Option ℚ),
      i ∈ rest → r ∈ filterProj records i meses racas → (∀ row ∈ acc, row.2.length = n) →
      ∃ row ∈ dfMergeGo records meses racas acc n rest,
        row.1 = keyOfTriple r ∧ row.2.getD (n + posOf i rest) none = r.2.2 := by
  intro rest
  induction rest with
  | nil => intro _ _ i _ h; cases h
  | cons a rest ih =>
    intro acc n i r hi hr hw
    by_cases hai : a = i
    · subst hai
      rcases @mem_outerMerge_right n acc (filterProj records a meses racas) r hr hw
        with ⟨row₀, h₀, hkey, hval⟩
      rcases dfMergeGo_extend records meses racas rest
          (outerMerge n acc (filterProj records a meses racas)) (n + 1) row₀ h₀
          (outerMerge_widths hw) with ⟨row', hr', hk', hg'⟩
      refine ⟨row', ?_, hk'.trans hkey, ?_⟩
      · simp only [dfMergeGo]
        exact hr'
      · rw [posOf_cons_self, Nat.add_zero, hg' n (by omega)]
        exact hval
    · have hi' : i ∈ rest := by
        rcases List.mem_cons.mp hi with h | h
        · exact absurd h.symm hai
        · exact h
      rcases ih (outerMerge n acc (filterProj records a meses racas)) (n + 1) i r hi' hr
          (outerMerge_widths hw) with ⟨row', hr', hk', hg'⟩
      refine ⟨row', ?_, hk', ?_⟩
      · simp only [dfMergeGo]
        exact hr'
      · rw [posOf_cons_ne rest hai, show n + (posOf i rest + 1) = n + 1 + posOf i rest by omega]
        exact hg'

theorem dfMergeGo_null_intro (records : List LongRecord) (meses racas : List String) :
    ∀ (rest : List String) (acc : List MergedRow) (n : Nat) (k : String × String) (i : String),
      i ∈ rest → (∀ r ∈ filterProj records i meses racas, keyOfTriple r ≠ k) →
      (∀ row ∈ acc, row.2.length = n) →
      ∀ row ∈ dfMergeGo records meses racas acc n rest, row.1 = k →
        row.2.getD (n + posOf i rest) none = none := by
  intro rest
  induction rest with
  | nil => intro _ _ _ i h; cases h
  | cons a rest ih =>
    intro acc n k i hi hnone hw row hrow hk
    by_cases hai : a = i
    · subst hai
      rw [posOf_cons_self, Nat.add_zero]
      simp only [dfMergeGo] at hrow
      exact dfMergeGo_null_preserve records meses racas rest _ _ _ _ (by omega)
        (outerMerge_widths hw) (outerMerge_null_at hnone hw) row hrow hk
    · have hi' : i ∈ rest := by
        rcases List.mem_cons.mp hi with h | h
        · exact absurd h.symm hai
        · exact h
      rw [posOf_cons_ne rest hai, show n + (posOf i rest + 1) = n + 1 + posOf i rest by omega]
      simp only [dfMergeGo] at hrow
      exact ih _ _ _ i hi' hnone (outerMerge_widths hw) row hrow hk

theorem dfMergeGo_sound (records : List LongRecord) (meses racas : List String) :
    ∀ (rest done : List String) (acc : List MergedRow),
      (∀ row ∈ acc, row.2.length = done.length) →
      (∀ row ∈ acc, ∀ j, j < done.length → ∀ q, row.2.getD j none = some q →
        (row.1.1, row.1.2, some q) ∈ filterProj records (done.getD j "") meses racas) →
      ∀ row ∈ dfMergeGo records meses racas acc done.length rest,
        ∀ j, j < (done ++ rest).length → ∀ q, row.2.getD j none = some q →
        (row.1.1, row.1.2, some q) ∈ filterProj records ((done ++ rest).getD j "") meses racas := by
  intro rest
  induction rest with
  | nil =>
    intro done acc hw hs row hrow j hj q hq
    simp only [dfMergeGo] at hrow
    simp only [List.append_nil] at hj ⊢
    exact hs row hrow j hj q hq
  | cons ind rest ih =>
    intro done acc hw hs row hrow j hj q hq
    simp only [dfMergeGo] at hrow
    have hlen : (done ++ [ind]).length = done.length + 1 := by simp
    have hrow' : row ∈ dfMergeGo records meses racas
        (outerMerge done.length acc (filterProj records ind meses racas))
        (done ++ [ind]).length rest := by
      rw [hlen]
      exact hrow
    have happ : done ++ ind :: rest = (done ++ [ind]) ++ rest := List.append_cons done ind rest
    rw [happ] at hj ⊢
    exact ih (done ++ [ind])
      (outerMerge done.length acc (filterProj records ind meses racas))
      (fun row h => by rw [hlen]; exact outerMerge_widths hw row h)
      (outerMerge_sound hw hs) row hrow' j hj q hq

theorem dfMergeGo_nil_of_empty (records : List LongRecord) (meses racas : List String) :
    ∀ (rest : List String) (n : Nat),
      (∀ i ∈ rest, filterProj records i meses racas = []) →
      dfMergeGo records meses racas [] n rest = [] := by
  intro rest
  induction rest with
  | nil => intro n _; rfl
  | cons a rest ih =>
    intro n h
    simp only [dfMergeGo]
    rw [h a (List.mem_cons_self a rest)]
    show dfMergeGo records meses racas (outerMerge n [] []) (n + 1) rest = []
    have : outerMerge n [] ([] : List (String × String × Option ℚ)) = [] := rfl
    rw [this]
    exact ih (n + 1) (fun i hi => h i (List.mem_cons_of_mem a hi))

theorem toMerged_widths (R : List (String × String × Option ℚ)) :
    ∀ row ∈ toMerged R, row.2.length = 1 := by
  intro row hrow
  rcases List.mem_map.mp hrow with ⟨t, _, rfl⟩
  rfl

theorem dfMergeFun_widths {records : List LongRecord} {meses racas : List String}
    {inds : List String} :
    ∀ row ∈ dfMergeFun records meses racas inds, row.2.length = inds.length := by
  cases inds with
  | nil => intro row h; cases h
  | cons ind rest =>
    intro row hrow
    simp only [dfMergeFun] at hrow
    have h := dfMergeGo_widths records meses racas rest _ 1
      (toMerged_widths (filterProj records ind meses racas)) row hrow
    simp only [List.length_cons]
    omega

theorem dfMergeFun_populate {records : List LongRecord} {meses racas : List String}
    {inds : List String} {i : String} {r : String × String × Option ℚ}
    (hi : i ∈ inds) (hr : r ∈ filterProj records i meses racas) :
    ∃ row ∈ dfMergeFun records meses racas inds,
      row.1 = keyOfTriple r ∧ row.2.getD (posOf i inds) none = r.2.2 := by
  cases inds with
  | nil => cases hi
  | cons ind rest =>
    simp only [dfMergeFun]
    by_cases hii : ind = i
    · subst hii
      have h₀ : (keyOfTriple r, [r.2.2]) ∈ toMerged (filterProj records ind meses racas) :=
        List.mem_map.mpr ⟨r, hr, rfl⟩
      rcases dfMergeGo_extend records meses racas rest _ 1 (keyOfTriple r, [r.2.2]) h₀
          (toMerged_widths _) with ⟨row', hr', hk', hg'⟩
      refine ⟨row', hr', hk', ?_⟩
      rw [posOf_cons_self]
      exact hg' 0 (by omega)
    · have hi' : i ∈ rest := by
        rcases List.mem_cons.mp hi with h | h
        · exact absurd h.symm hii
        · exact h
      rcases dfMergeGo_populate records meses racas rest _ 1 i r hi' hr
          (toMerged_widths _) with ⟨row', hr', hk', hg'⟩
      refine ⟨row', hr', hk', ?_⟩
      rw [posOf_cons_ne rest hii, show posOf i rest + 1 = 1 + posOf i rest by omega]
      exact hg'

theorem dfMergeFun_null_at {records : List LongRecord} {meses racas : List String}
    {inds : List String} {i : String} {k : String × String}
    (hi : i ∈ inds) (hnone : ∀ r ∈ filterProj records i meses racas, keyOfTriple r ≠ k) :
    ∀ row ∈ dfMergeFun records meses racas inds, row.1 = k →
      row.2.getD (posOf i inds) none = none := by
  cases inds with
  | nil => cases hi
  | cons ind rest =>
    intro row hrow hk
    simp only [dfMergeFun] at hrow
    by_cases hii : ind = i
    · subst hii
      rw [posOf_cons_self]
      refine dfMergeGo_null_preserve records meses racas rest _ 1 0 k (by omega)
        (toMerged_widths _) ?_ row hrow hk
      intro row₀ h₀ hk₀
      rcases List.mem_map.mp h₀ with ⟨t, ht, rfl⟩
      exact absurd hk₀ (hnone t ht)
    · have hi' : i ∈ rest := by
        rcases List.mem_cons.mp hi with h | h
        · exact absurd h.symm hii
        · exact h
      rw [posOf_cons_ne rest hii, show posOf i rest + 1 = 1 + posOf i rest by omega]
      exact dfMergeGo_null_intro records meses racas rest _ 1 k i hi' hnone
        (toMerged_widths _) row hrow hk

theorem dfMergeFun_sound {records : List LongRecord} {meses racas : List String}
    {inds : List String} :
    ∀ row ∈ dfMergeFun records meses racas inds, ∀ j, j < inds.length →
      ∀ q, row.2.getD j none = some q →
      (row.1.1, row.1.2, some q) ∈ filterProj records (inds.getD j "") meses racas := by
  cases inds with
  | nil => intro row h; cases h
  | cons ind rest =>
    intro row hrow j hj q hq
    simp only [dfMergeFun] at hrow
    have hbase : ∀ row ∈ toMerged (filterProj records ind meses racas),
        ∀ j, j < ([ind] : List String).length → ∀ q, row.2.getD j none = some q →
        (row.1.1, row.1.2, some q) ∈
          filterProj records (([ind] : List String).getD j "") meses racas := by
      intro row₀ h₀ j₀ hj₀ q₀ hq₀
      rcases List.mem_map.mp h₀ with ⟨t, ht, rfl⟩
      have hj0 : j₀ = 0 := by
        simp only [List.length_singleton] at hj₀
        omega
      subst hj0
      show ((keyOfTriple t).1, (keyOfTriple t).2, some q₀) ∈ filterProj records ind meses racas
      have : t.2.2 = some q₀ := hq₀
      show (t.1, t.2.1, some q₀) ∈ filterProj records ind meses racas
      rw [← this]
      exact ht
    have h := dfMergeGo_sound records meses racas rest [ind] _ (toMerged_widths _) hbase
      row hrow j (by simpa using hj) q hq
    simpa using h

theorem dfMergeFun_nil_of_empty {records : List LongRecord} {meses racas : List String}
    {inds : List String} (h : ∀ i ∈ inds, filterProj records i meses racas = []) :
    dfMergeFun records meses racas inds = [] := by
  cases inds with
  | nil => rfl
  | cons ind rest =>
    simp only [dfMergeFun]
    rw [h ind (List.mem_cons_self ind rest)]
    show dfMergeGo records meses racas (toMerged []) 1 rest = []
    exact dfMergeGo_nil_of_empty records meses racas rest 1
      (fun i hi => h i (List.mem_cons_of_mem ind hi))

/-! ### Triple-set membership lemmas -/

theorem mem_zip_iff_getD :
    ∀ {l1 : List String} {l2 : List (Option ℚ)} {x : String} {y : Option ℚ},
      (x, y) ∈ l1.zip l2 ↔
        ∃ j, j < l1.length ∧ j < l2.length ∧ l1.getD j "" = x ∧ l2.getD j none = y := by
  intro l1
  induction l1 with
  | nil => intro l2 x y; simp
  | cons c cs ih =>
    intro l2 x y
    cases l2 with
    | nil => simp
    | cons v vs =>
      constructor
      · intro h
        rcases List.mem_cons.mp h with h | h
        · exact ⟨0, by simp, by simp, (congrArg Prod.fst h).symm, (congrArg Prod.snd h).symm⟩
        · rcases ih.mp h with ⟨j, h1, h2, h3, h4⟩
          exact ⟨j + 1, by simpa using Nat.succ_lt_succ h1, by simpa using Nat.succ_lt_succ h2, h3, h4⟩
      · rintro ⟨j, h1, h2, h3, h4⟩
        cases j with
        | zero =>
          have hx : c = x := h3
          have hy : v = y := h4
          subst hx
          subst hy
          exact List.mem_cons_self _ _
        | succ j' =>
          apply List.mem_cons_of_mem
          exact ih.mpr ⟨j', by simpa using Nat.lt_of_succ_lt_succ h1,
            by simpa using Nat.lt_of_succ_lt_succ h2, h3, h4⟩

theorem mem_wideTriples {cols : List String} {vs : List (Option ℚ)} {tr : String × String × ℚ} :
    tr ∈ wideTriples cols vs ↔
      ∃ cv ∈ cols.zip vs, ∃ rc, (splitDot1 cv.1).2 = some rc ∧
        ∃ q, cv.2 = some q ∧ ((splitDot1 cv.1).1, rc, round2 q) = tr := by
  unfold wideTriples
  rw [List.mem_filterMap]
  constructor
  · rintro ⟨cv, hcv, heq⟩
    rcases Option.bind_eq_some.mp heq with ⟨rc, hrc, hmap⟩
    rcases Option.map_eq_some'.mp hmap with ⟨q, hq, hfq⟩
    exact ⟨cv, hcv, rc, hrc, q, hq, hfq⟩
  · rintro ⟨cv, hcv, rc, hrc, q, hq, hfq⟩
    exact ⟨cv, hcv, Option.bind_eq_some.mpr ⟨rc, hrc, Option.map_eq_some'.mpr ⟨q, hq, hfq⟩⟩⟩

theorem mem_pivotTriples {out : List MergedRow} {j : Nat} {tr : String × String × ℚ} :
    tr ∈ pivotTriples out j ↔
      ∃ row ∈ out, ∃ q, row.2.getD j none = some q ∧ tr = (row.1.1, row.1.2, round2 q) := by
  unfold pivotTriples
  rw [List.mem_filterMap]
  constructor
  · rintro ⟨row, hrow, heq⟩
    rcases Option.map_eq_some'.mp heq with ⟨q, hq, hfq⟩
    exact ⟨row, hrow, q, hq, hfq.symm⟩
  · rintro ⟨row, hrow, q, hq, hfq⟩
    exact ⟨row, hrow, Option.map_eq_some'.mpr ⟨q, hq, hfq.symm⟩⟩

/-! ### Pipeline-shape helpers -/

theorem runPipeline_ok_step {t : WideTable} {df : DF} {selInds selMeses selRacas : List String}
    (hok : setColumns t = .ok df) :
    runPipeline t selInds selMeses selRacas =
      if (indicadoresOf (dfFinal df)).length < 2 then .error .indexError
      else if selInds.length < 2 then .error .tooFewIndicators
      else if (dfMergeFun (dfFinal df) selMeses selRacas selInds).isEmpty then
        .error .emptyResult
      else .ok (sortMerged selMeses (dfMergeFun (dfFinal df) selMeses selRacas selInds)) := by
  unfold runPipeline
  rw [hok]

theorem getD_map_round2 (l : List (Option ℚ)) (j : Nat) :
    (l.map (Option.map round2)).getD j none = (l.getD j none).map round2 := by
  induction l generalizing j with
  | nil => rfl
  | cons v vs ih =>
    cases j with
    | zero => rfl
    | succ j' => exact ih j'

/-! ## Claims -/

/-- **C3** (corrected). The claim describes the lookup key as the first 3 characters of
the accent-stripped, lower-cased input; the code additionally strips surrounding
whitespace first (`.strip()`, line 29), so the claim's key is wrong for inputs with
leading whitespace. Amended with the whitespace strip, the property holds: any two
inputs with the same normalized key, when that key is one of the 12 table entries,
canonicalize to the same fixed canonical month name (the table's value). -/
theorem C3_same_prefix_same_canonical (s₁ s₂ v : String)
    (hk : monthKey s₁ = monthKey s₂) (hv : mapa.lookup (monthKey s₁) = some v) :
    canonical_month (.s s₁) = v ∧ canonical_month (.s s₂) = v := by
  simp only [canonical_month]
  constructor
  · rw [hv]
    rfl
  · rw [← hk, hv]
    rfl

/-- **C3** counterexample to the claim as stated: the accent-strip + lowercase key of
`" fevereiro"` is `" fe"`, which is not in the 12-entry table, so under the claimed
mechanism the input would be left unmatched; the code canonicalizes it to
`"Fevereiro"` because it strips the leading whitespace before keying. -/
theorem C3_counterexample :
    mapa.lookup (claimKey " fevereiro") = none ∧
      canonical_month (.s " fevereiro") = "Fevereiro" ∧ " fevereiro" ≠ "Fevereiro" := by
  decide

/-- **C3** witness: two spellings of January share the key `"jan"` and both
canonicalize to `"Janeiro"`. -/
theorem C3_witness :
    canonical_month (.s "JANEIRO") = "Janeiro" ∧ canonical_month (.s "janéiro") = "Janeiro" :=
  C3_same_prefix_same_canonical "JANEIRO" "janéiro" "Janeiro" (by decide) (by decide)

/-- **C4** (corrected). With the normalization amended to include the code's
whitespace strip (see C3), `canonical_month` is the identity on every string whose
normalized 3-character key misses the table, and returns the stringified form of
every non-string input unchanged; being a total function it never raises. -/
theorem C4_fail_open_identity :
    (∀ s : String, mapa.lookup (monthKey s) = none → canonical_month (.s s) = s) ∧
      (∀ r : String, canonical_month (.nonStr r) = r) := by
  constructor
  · intro s h
    simp only [canonical_month]
    rw [h]
    rfl
  · intro r
    rfl

/-- **C4** counterexample to the claim as stated: `" janeiro"` has the
accent-strip + lowercase prefix `" ja"`, not one of the 12 keys, so the claim
requires it to be returned unchanged — but the code returns `"Janeiro"`. -/
theorem C4_counterexample :
    mapa.lookup (claimKey " janeiro") = none ∧
      canonical_month (.s " janeiro") = "Janeiro" ∧ "Janeiro" ≠ " janeiro" := by
  decide

/-- **C4** witness: an unmatched string comes back unchanged, and a non-string
comes back as its stringified form. -/
theorem C4_witness :
    canonical_month (.s "tabela") = "tabela" ∧ canonical_month (.nonStr "42") = "42" :=
  ⟨C4_fail_open_identity.1 "tabela" (by decide), C4_fail_open_identity.2 "42"⟩

/-- **C5** (code bug). The even-count case renames positionally exactly as claimed:
`[Id, Jan_Hib, Jan_Zeb, Fev_Hib, Fev_Zeb]` becomes
`[Janeiro.Hibrido, Janeiro.Zebu, Fevereiro.Hibrido, Fevereiro.Zebu]`. But in the
odd-count case the code only truncates the list it derives `novos_nomes` from: the
warning at line 56 promises the last column will be ignored, yet line 64 then assigns
a `novos_nomes` that is one name shorter than the frame is wide, which pandas rejects
with `ValueError: Length mismatch` — the render crashes instead of proceeding. -/
theorem C5_column_mapping :
    setColumns ⟨[.s "Indicador", .s "Jan_Hib", .s "Jan_Zeb", .s "Fev_Hib", .s "Fev_Zeb"],
        [("Ganho de Peso", [some 1, some 2, some 3, some 4])]⟩ =
      .ok ⟨["Janeiro.Hibrido", "Janeiro.Zebu", "Fevereiro.Hibrido", "Fevereiro.Zebu"],
        [("Ganho de Peso", [some 1, some 2, some 3, some 4])]⟩ ∧
    setColumns ⟨[.s "Indicador", .s "Jan_Hib", .s "Jan_Zeb", .s "Fev_Hib"],
        [("Ganho de Peso", [some 1, some 2, some 3])]⟩ = .error .lengthMismatch := by
  decide

/-- **C6** (confirmed). The sorted comparison table is ordered by `mergeLE`: primarily
by the position of the row's month within the user-chosen month list (the ordered
Categorical of lines 114-115, not the fixed 12-month calendar), secondarily by the
breed label in code-point lexicographic order — a deterministic ordinal order — and
it is a permutation of the unsorted merge result. -/
theorem C6_pivot_ordering (records : List LongRecord) (inds selMeses selRacas : List String) :
    List.Sorted (mergeLE selMeses)
        (sortMerged selMeses (dfMergeFun records selMeses selRacas inds)) ∧
      (sortMerged selMeses (dfMergeFun records selMeses selRacas inds)).Perm
        (dfMergeFun records selMeses selRacas inds) :=
  ⟨List.sorted_insertionSort _ _, List.perm_insertionSort _ _⟩

/-- **C7** (confirmed). Whenever the pipeline reaches the selection stage (the source
renames cleanly and at least two distinct indicators exist, so the widget default can
be built), selecting fewer than 2 indicators yields exactly the recoverable
"needs more selection" stop — never a crash, and the merge/chart stages are never
reached, as the error short-circuits the rest of the pipeline. -/
theorem C7_too_few_indicators (t : WideTable) (df : DF) (selInds selMeses selRacas : List String)
    (hok : setColumns t = .ok df) (havail : 2 ≤ (indicadoresOf (dfFinal df)).length)
    (hsel : selInds.length < 2) :
    runPipeline t selInds selMeses selRacas = .error .tooFewIndicators := by
  rw [runPipeline_ok_step hok, if_neg (by omega), if_pos hsel]

/-- **C7** witness: a two-indicator table with a single selected indicator stops with
the "needs more selection" condition. -/
theorem C7_witness :
    runPipeline ⟨[.s "Indicador", .s "Jan_Hib", .s "Jan_Zeb"],
        [("A", [some 1, some 2]), ("B", [some 3, none])]⟩
      ["A"] ["Janeiro"] ["Zebu", "Hibrido"] = .error .tooFewIndicators :=
  C7_too_few_indicators _
    ⟨["Janeiro.Hibrido", "Janeiro.Zebu"], [("A", [some 1, some 2]), ("B", [some 3, none])]⟩
    _ _ _ (by decide) (by decide) (by decide)

/-- **C8** (confirmed). With at least 2 indicators selected, a filter that matches no
record for any selected indicator makes the merge empty, and the pipeline stops with
the "empty result" condition — a condition distinct from "too few indicators". -/
theorem C8_empty_result (t : WideTable) (df : DF) (selInds selMeses selRacas : List String)
    (hok : setColumns t = .ok df) (havail : 2 ≤ (indicadoresOf (dfFinal df)).length)
    (hsel : 2 ≤ selInds.length)
    (hempty : ∀ i ∈ selInds, filterProj (dfFinal df) i selMeses selRacas = []) :
    runPipeline t selInds selMeses selRacas = .error .emptyResult ∧
      PipeError.emptyResult ≠ PipeError.tooFewIndicators := by
  refine ⟨?_, by decide⟩
  rw [runPipeline_ok_step hok, if_neg (by omega), if_neg (by omega),
    dfMergeFun_nil_of_empty hempty]
  rfl

/-- **C8** witness: two indicators selected but an empty month selection matches no
record, stopping with the "empty result" condition. -/
theorem C8_witness :
    runPipeline ⟨[.s "Indicador", .s "Jan_Hib", .s "Jan_Zeb"],
        [("A", [some 1, some 2]), ("B", [some 3, none])]⟩
      ["A", "B"] [] ["Zebu", "Hibrido"] = .error .emptyResult ∧
      PipeError.emptyResult ≠ PipeError.tooFewIndicators :=
  C8_empty_result _
    ⟨["Janeiro.Hibrido", "Janeiro.Zebu"], [("A", [some 1, some 2]), ("B", [some 3, none])]⟩
    _ _ _ (by decide) (by decide) (by decide) (by decide)

/-- **C9** (confirmed). Every cell of the displayed table is the 2-decimal rounding of
the corresponding merge cell, with nulls passing through untouched
(`Option.map round2` sends `none` to `none`); and the spec's example row
`Ganho de Peso | 10.456 | 20.111` under columns `[Indicador, Jan_Hib, Jan_Zeb]`
renames and reshapes to the records `(Ganho de Peso, Janeiro, Hibrido, 10.456)` and
`(Ganho de Peso, Janeiro, Zebu, 20.111)`, whose values round for display to `10.46`
and `20.11`. -/
theorem C9_display_rounding :
    (∀ (m : List MergedRow) (row : MergedRow), row ∈ dfShow m →
      ∃ row₀ ∈ m, row.1 = row₀.1 ∧ row.2.length = row₀.2.length ∧
        ∀ j, row.2.getD j none = (row₀.2.getD j none).map round2) ∧
    (setColumns ⟨[.s "Indicador", .s "Jan_Hib", .s "Jan_Zeb"],
        [("Ganho de Peso", [some (mkRat 10456 1000), some (mkRat 20111 1000)])]⟩ =
      .ok ⟨["Janeiro.Hibrido", "Janeiro.Zebu"],
        [("Ganho de Peso", [some (mkRat 10456 1000), some (mkRat 20111 1000)])]⟩ ∧
      dfFinal ⟨["Janeiro.Hibrido", "Janeiro.Zebu"],
        [("Ganho de Peso", [some (mkRat 10456 1000), some (mkRat 20111 1000)])]⟩ =
        [⟨"Ganho de Peso", "Janeiro", "Hibrido", some (mkRat 10456 1000)⟩,
         ⟨"Ganho de Peso", "Janeiro", "Zebu", some (mkRat 20111 1000)⟩] ∧
      round2 (mkRat 10456 1000) = mkRat 1046 100 ∧
      round2 (mkRat 20111 1000) = mkRat 2011 100) := by
  constructor
  · intro m row h
    rcases List.mem_map.mp h with ⟨row₀, h₀, rfl⟩
    exact ⟨row₀, h₀, rfl, by simp, fun j => getD_map_round2 row₀.2 j⟩
  · exact ⟨by decide, by decide, by decide, by decide⟩

/-- **C9** witness: a concrete merged row through `dfShow` — `10.456` displays as
`10.46` and the null cell stays null. -/
theorem C9_witness :
    ((("Janeiro", "Hibrido"), [some (mkRat 1046 100), (none : Option ℚ)]) : MergedRow) ∈
        dfShow [(("Janeiro", "Hibrido"), [some (mkRat 10456 1000), none])] ∧
      ∃ row₀ ∈ ([((("Janeiro", "Hibrido") : String × String),
          [some (mkRat 10456 1000), (none : Option ℚ)])] : List MergedRow),
        ((("Janeiro", "Hibrido"), [some (mkRat 1046 100), (none : Option ℚ)]) : MergedRow).1 =
            row₀.1 ∧
          ([some (mkRat 1046 100), (none : Option ℚ)]).length = row₀.2.length ∧
          ∀ j, ([some (mkRat 1046 100), (none : Option ℚ)]).getD j none =
            (row₀.2.getD j none).map round2 :=
  ⟨by decide, C9_display_rounding.1 _ _ (by decide)⟩

/-- **C10** (confirmed). The "needs more selection" guard is reachable only past the
widget-default computation `[indicadores[0], indicadores[1]]` of line 89: for every
source whose long table holds fewer than two distinct indicator names, that indexing
fails with an uncaught `IndexError` — regardless of any selection — before any
selection check or warning runs. -/
theorem C10_default_selection_index_error (t : WideTable) (df : DF)
    (selInds selMeses selRacas : List String)
    (hok : setColumns t = .ok df)
    (hfew : (indicadoresOf (dfFinal df)).length < 2) :
    runPipeline t selInds selMeses selRacas = .error .indexError := by
  rw [runPipeline_ok_step hok, if_pos hfew]

/-- **C2** (confirmed). Outer-join completeness: if among the filtered records some
selected indicator `X` carries a value for a `(Month, Breed)` key and another
selected indicator `Y` carries no record for that key, the merged table has a row
for that key whose `X` column holds the value and whose `Y` column is null; and no
`(Month, Breed)` key present for any selected indicator is missing from the merge. -/
theorem C2_outer_join_completeness
    (records : List LongRecord) (meses racas inds : List String)
    (X Y m b : String) (q : ℚ)
    (hX : X ∈ inds) (hY : Y ∈ inds) (_hne : X ≠ Y)
    (hXrec : (m, b, some q) ∈ filterProj records X meses racas)
    (hYnone : ∀ w, (m, b, w) ∉ filterProj records Y meses racas) :
    (∃ row ∈ dfMergeFun records meses racas inds,
        row.1 = (m, b) ∧ row.2.getD (posOf X inds) none = some q ∧
          row.2.getD (posOf Y inds) none = none) ∧
      (∀ (k : String × String) (i : String), i ∈ inds →
        (∃ v, (k.1, k.2, v) ∈ filterProj records i meses racas) →
        ∃ row ∈ dfMergeFun records meses racas inds, row.1 = k) := by
  constructor
  · rcases dfMergeFun_populate hX hXrec with ⟨row, hrow, hkey, hval⟩
    have hYnone' : ∀ r ∈ filterProj records Y meses racas,
        keyOfTriple r ≠ ((m, b) : String × String) := by
      intro r hr hkr
      apply hYnone r.2.2
      have h1 : r.1 = m := congrArg Prod.fst hkr
      have h2 : r.2.1 = b := congrArg Prod.snd hkr
      have hre : r = (m, b, r.2.2) := by
        rw [← h1, ← h2]
      rw [← hre]
      exact hr
    have hnull := dfMergeFun_null_at hY hYnone' row hrow hkey
    exact ⟨row, hrow, hkey, hval, hnull⟩
  · rintro k i hi ⟨v, hv⟩
    rcases dfMergeFun_populate hi hv with ⟨row, hrow, hkey, _⟩
    exact ⟨row, hrow, hkey⟩

/-- **C1** (confirmed). Round-trip of reshape then pivot: for a well-formed renamed
wide table (rectangular with distinct indicator names, every non-identifier column
splitting into a chosen month and one of the two breeds, both breeds selected),
pivoting over any duplicate-free coverage of the indicators reconstructs, for each
indicator row, exactly the set of non-null `(Month, Breed, Value)` triples the wide
row carries, with values compared after 2-decimal rounding. -/
theorem C1_reshape_pivot_round_trip
    (df : DF) (inds meses racas : List String) (ind : String) (vs : List (Option ℚ))
    (hnd : (df.rows.map Prod.fst).Nodup)
    (hrow : (ind, vs) ∈ df.rows)
    (hind : ind ∈ inds)
    (hracas : racas = ["Zebu", "Hibrido"])
    (hcols : ∀ c ∈ df.cols, (splitDot1 c).1 ∈ meses ∧
      ((splitDot1 c).2 = some "Zebu" ∨ (splitDot1 c).2 = some "Hibrido"))
    (tr : String × String × ℚ) :
    tr ∈ wideTriples df.cols vs ↔
      tr ∈ pivotTriples (dfMergeFun (dfFinal df) meses racas inds) (posOf ind inds) := by
  constructor
  · intro h
    rcases mem_wideTriples.mp h with ⟨cv, hcv, rc, hrc, q, hq, hfq⟩
    obtain ⟨c, v⟩ := cv
    have hv' : v = some q := hq
    subst hv'
    rcases mem_zip_iff_getD.mp hcv with ⟨j, hj1, hj2, hcj, hvj⟩
    have hb : rc = "Zebu" ∨ rc = "Hibrido" := by
      rcases (hcols c (List.of_mem_zip hcv).1).2 with h2 | h2
      · left
        rw [hrc] at h2
        exact Option.some.inj h2
      · right
        rw [hrc] at h2
        exact Option.some.inj h2
    have hrecmem : (⟨ind, (splitDot1 c).1, rc, some q⟩ : LongRecord) ∈ dfFinal df := by
      apply mem_dfFinal.mpr
      refine ⟨(ind, c, some q), ?_, ?_, hb, rfl, rfl⟩
      · have hmelt : (ind, df.cols.getD j "", vs.getD j none) ∈ melt df.cols df.rows :=
          melt_complete df.cols df.rows (ind, vs) j hrow hj1
        rw [hcj, hvj] at hmelt
        exact hmelt
      · show splitDot1 c = ((splitDot1 c).1, some rc)
        rw [← hrc]
    have hproj : ((splitDot1 c).1, rc, (some q : Option ℚ)) ∈
        filterProj (dfFinal df) ind meses racas := by
      apply mem_filterProj.mpr
      refine ⟨⟨ind, (splitDot1 c).1, rc, some q⟩, hrecmem, rfl, ?_, ?_, rfl⟩
      · exact (hcols c (List.of_mem_zip hcv).1).1
      · rw [hracas]
        rcases hb with h' | h' <;> simp [h']
    rcases dfMergeFun_populate hind hproj with ⟨row, hrowm, hkey, hval⟩
    apply mem_pivotTriples.mpr
    refine ⟨row, hrowm, q, hval, ?_⟩
    rw [hkey]
    exact hfq.symm
  · intro h
    rcases mem_pivotTriples.mp h with ⟨row, hrowm, q, hval, htr⟩
    have hjlt : posOf ind inds < inds.length := posOf_lt_length hind
    have hsound := dfMergeFun_sound row hrowm (posOf ind inds) hjlt q hval
    rw [getD_posOf "" hind] at hsound
    rcases mem_filterProj.mp hsound with ⟨rec, hrecmem, hindic, hmes, hraca, heq⟩
    have h1 : row.1.1 = rec.mes := congrArg (fun p => p.1) heq
    have h2 : row.1.2 = rec.raca := congrArg (fun p => p.2.1) heq
    have h3 : (some q : Option ℚ) = rec.valor := congrArg (fun p => p.2.2) heq
    rcases mem_dfFinal.mp hrecmem with ⟨r, hrmelt, hsp, hbr, hindr, hvalr⟩
    rcases melt_sound df.cols df.rows r hrmelt with ⟨a, ha, hra, j, hjc, hcj, hvj⟩
    have haind : a.1 = ind := by
      rw [← hra, ← hindr]
      exact hindic
    have ha' : (ind, a.2) ∈ df.rows := by
      rw [← haind]
      exact ha
    have hvs : vs = a.2 := nodup_keys_eq hnd hrow ha'
    have hval_j : vs.getD j none = some q := by
      rw [hvs, ← hvj, ← hvalr]
      exact h3.symm
    have hjv : j < vs.length := by
      by_contra hge
      rw [getD_default_of_le vs none j (by omega)] at hval_j
      cases hval_j
    have hz : (df.cols.getD j "", vs.getD j none) ∈ df.cols.zip vs :=
      mem_zip_iff_getD.mpr ⟨j, hjc, hjv, rfl, rfl⟩
    apply mem_wideTriples.mpr
    refine ⟨(df.cols.getD j "", vs.getD j none), hz, rec.raca, ?_, q, hval_j, ?_⟩
    · show (splitDot1 (df.cols.getD j "")).2 = some rec.raca
      rw [← hcj, hsp]
    · show ((splitDot1 (df.cols.getD j "")).1, rec.raca, round2 q) = tr
      rw [← hcj, hsp, htr, h1, h2]

/-- **C1** witness: a two-indicator, one-month table round-trips — the triple
`(Janeiro, Hibrido, 1)` of indicator `A`'s wide row is exactly what the pivot holds
for `A` at that key. -/
theorem C1_witness :
    (("Janeiro", "Hibrido", (1 : ℚ)) ∈
        wideTriples ["Janeiro.Hibrido", "Janeiro.Zebu"] [some 1, some 2] ↔
      ("Janeiro", "Hibrido", (1 : ℚ)) ∈
        pivotTriples
          (dfMergeFun
            (dfFinal ⟨["Janeiro.Hibrido", "Janeiro.Zebu"],
              [("A", [some 1, some 2]), ("B", [some 3, none])]⟩)
            ["Janeiro"] ["Zebu", "Hibrido"] ["A", "B"])
          (posOf "A" ["A", "B"])) ∧
      ("Janeiro", "Hibrido", (1 : ℚ)) ∈
        wideTriples ["Janeiro.Hibrido", "Janeiro.Zebu"] [some 1, some 2] :=
  ⟨C1_reshape_pivot_round_trip
      ⟨["Janeiro.Hibrido", "Janeiro.Zebu"], [("A", [some 1, some 2]), ("B", [some 3, none])]⟩
      ["A", "B"] ["Janeiro"] ["Zebu", "Hibrido"] "A" [some 1, some 2]
      (by decide) (by decide) (by decide) rfl (by decide) ("Janeiro", "Hibrido", (1 : ℚ)),
    by decide⟩

/-- **C2** witness: indicator `A` has a January/Hibrido value, indicator `B` has only
a February record, and the merge shows `A`'s value with `B` null on the
January/Hibrido row. -/
theorem C2_witness :
    (∃ row ∈ dfMergeFun
        [⟨"A", "Janeiro", "Hibrido", some 1⟩, ⟨"B", "Fevereiro", "Hibrido", some 2⟩]
        ["Janeiro", "Fevereiro"] ["Zebu", "Hibrido"] ["A", "B"],
        row.1 = ("Janeiro", "Hibrido") ∧
          row.2.getD (posOf "A" ["A", "B"]) none = some 1 ∧
          row.2.getD (posOf "B" ["A", "B"]) none = none) ∧
      (∀ (k : String × String) (i : String), i ∈ (["A", "B"] : List String) →
        (∃ v, (k.1, k.2, v) ∈ filterProj
          [⟨"A", "Janeiro", "Hibrido", some 1⟩, ⟨"B", "Fevereiro", "Hibrido", some 2⟩]
          i ["Janeiro", "Fevereiro"] ["Zebu", "Hibrido"]) →
        ∃ row ∈ dfMergeFun
          [⟨"A", "Janeiro", "Hibrido", some 1⟩, ⟨"B", "Fevereiro", "Hibrido", some 2⟩]
          ["Janeiro", "Fevereiro"] ["Zebu", "Hibrido"] ["A", "B"], row.1 = k) :=
  C2_outer_join_completeness
    [⟨"A", "Janeiro", "Hibrido", some 1⟩, ⟨"B", "Fevereiro", "Hibrido", some 2⟩]
    ["Janeiro", "Fevereiro"] ["Zebu", "Hibrido"] ["A", "B"] "A" "B" "Janeiro" "Hibrido" 1
    (by decide) (by decide) (by decide) (by decide)
    (by
      intro w hw
      rw [show filterProj
          [⟨"A", "Janeiro", "Hibrido", some 1⟩, ⟨"B", "Fevereiro", "Hibrido", some 2⟩]
          "B" ["Janeiro", "Fevereiro"] ["Zebu", "Hibrido"] =
          [("Fevereiro", "Hibrido", some 2)] from by decide] at hw
      rw [List.mem_singleton] at hw
      have h' : ("Janeiro" : String) = "Fevereiro" := congrArg Prod.fst hw
      exact absurd h' (by decide))

/-- **C10** witness: a single-indicator table dies with the `IndexError`, even though
two indicators are "selected". -/
theorem C10_witness :
    runPipeline ⟨[.s "Indicador", .s "Jan_Hib", .s "Jan_Zeb"], [("A", [some 1, some 2])]⟩
      ["A", "B"] ["Janeiro"] ["Zebu", "Hibrido"] = .error .indexError :=
  C10_default_selection_index_error _
    ⟨["Janeiro.Hibrido", "Janeiro.Zebu"], [("A", [some 1, some 2])]⟩
    _ _ _ (by decide) (by decide)

end AnaliseRip
